import Mathlib

/-!
Verification development for the payroll punch-time analysis engine
(`payroll_api/services/payroll_service.py`).

Shallow embedding conventions:
* A timestamp is an `Int`, seconds since an epoch whose day 0 is a Monday
  midnight; a calendar date is the `Int` day number `t.fdiv 86400`.
* The Python code computes float hours (`total_seconds() / 3600`) and sums and
  compares them.  We keep exact integer seconds through the pipeline; every
  comparison of the source (`hours > 12`, `rest_hours < 10`, `hours >= 60`,
  `total_hours > 0`) is rendered as the equivalent comparison on seconds
  (`secs > 12*3600`, ...), which is exact.  The bridge `hoursQ` (seconds to
  rational hours) is used in theorem statements so they read like the spec.
* `round(x, 2)` on hours is rendered as `round2h`: the nearest integer number
  of hundredths of an hour (halves rounded up), an idealization of Python
  float rounding.  No property under verification depends on the tie policy.
* A raw timestamp cell is either `missing` (pandas `NaN`, which converts to
  `NaT`), a parsed instant, or `bad` (an unparseable string, on which the
  column-wide `pd.to_datetime` call raises).  Fallible steps return
  `Except PayrollError`.
* pandas `groupby(sort=True)` sorts group keys ascending; we mirror this with
  an insertion sort over the deduplicated key list.  `sort_values` on a key
  tuple that is unique per row is order-equivalent to the same sort.
* The Excel report write of `analyze` is external I/O and modelled as
  succeeding; on success the Python code appends no warning.
-/

deriving instance DecidableEq for Except

/-- Error kinds the service can raise (`ValueError`s in the Python source):
an unparseable timestamp column (from `pd.to_datetime(...)`), or
`start_date > end_date` in `analyze`. -/
inductive PayrollError where
  | parseError
  | invalidRange
deriving DecidableEq

/-- One raw timestamp cell of the input sheet. -/
inductive Cell where
  | missing
  | time (t : Int)
  | bad
deriving DecidableEq

/-- Whether a cell is an unparseable string (on which `pd.to_datetime` raises). -/
def Cell.isBad : Cell → Bool
  | .bad => true
  | _ => false

/-- One raw input row after column normalization (`EECode`, `Firstname`,
`Lastname`, `InPunchTime`, `OutPunchTime`). -/
structure Row where
  eecode : String
  firstname : String
  lastname : String
  inCell : Cell
  outCell : Cell
deriving DecidableEq

/-- A row after `pd.to_datetime` on both punch columns: each cell is either a
timestamp or `NaT` (`none`). -/
structure ParsedRow where
  eecode : String
  firstname : String
  lastname : String
  inT : Option Int
  outT : Option Int
deriving DecidableEq

/-- Convert one cell as `pd.to_datetime` does: `NaN ↦ NaT`, a timestamp stays,
an unparseable string raises. -/
def cellDT : Cell → Except PayrollError (Option Int)
  | .missing => .ok none
  | .time t => .ok (some t)
  | .bad => .error .parseError

/-- The `pd.to_datetime` conversion of both punch columns, performed by every
flag method on its own copy of the dataframe: any unparseable cell makes the
whole conversion (hence the whole analysis) fail. -/
def toDatetimeRows : List Row → Except PayrollError (List ParsedRow)
  | [] => .ok []
  | r :: rs =>
      match cellDT r.inCell, cellDT r.outCell, toDatetimeRows rs with
      | .ok i, .ok o, .ok tl =>
          .ok (⟨r.eecode, r.firstname, r.lastname, i, o⟩ :: tl)
      | .error e, _, _ => .error e
      | _, .error e, _ => .error e
      | _, _, .error e => .error e

/-- Whether some row has an unparseable timestamp cell. -/
def hasBad (rows : List Row) : Bool :=
  rows.any fun r => r.inCell.isBad || r.outCell.isBad

/-- Seconds per day (`timedelta(days=1)`). -/
def daySecs : Int := 86400

/-- Calendar date (day number) of a timestamp: `Timestamp.date()`. -/
def dateOf (t : Int) : Int := t.fdiv daySecs

/-- The Monday (day number) of the ISO week containing a date; this is the
start of the pandas `to_period` weekly (`W-SUN`, Monday through Sunday) period,
since day 0 of our epoch is a Monday. -/
def weekKey (d : Int) : Int := d - d.emod 7

/-- Shift duration in seconds, exactly as each flag method computes it:
`out - in`; if negative, add one day.  There is no clamping to zero. -/
def secsOf (i o : Int) : Int :=
  let diff := o - i
  if diff < 0 then diff + daySecs else diff

/-- Seconds rendered as rational hours (`total_seconds() / 3600`); used in
theorem statements as the exact idealization of the Python float hours. -/
def hoursQ (s : Int) : ℚ := (s : ℚ) / 3600

/-- Shift duration in hours (the spec-level view of `secsOf`). -/
def hoursOf (i o : Int) : ℚ := hoursQ (secsOf i o)

/-- Python `round(x, 2)` on the hours value of `s` seconds: the nearest
integer number of hundredths of an hour (halves up), i.e. `round(s/3600 * 100)`. -/
def round2h (s : Int) : Int := Int.fdiv (s * 100 * 2 + 3600) 7200

/-- One entry of the per-shift `hours_list` / `daily_hours` lists built inside
the flag methods: identity columns, the work date (the date of the in-punch),
and the computed duration in seconds. -/
structure HourRec where
  ee : String
  fn : String
  ln : String
  date : Int
  secs : Int
deriving DecidableEq

/-- The hour record a parsed row contributes (when both punches are present). -/
def recOf (e f l : String) (i o : Int) : HourRec :=
  ⟨e, f, l, dateOf i, secsOf i o⟩

/-- The per-shift hour list used by `flag_excess_hours` and
`flag_weekly_excess_hours`: rows with both punches present, no duration
restriction. -/
def hourRecsAll (prs : List ParsedRow) : List HourRec :=
  prs.filterMap fun r =>
    match r.inT, r.outT with
    | some i, some o => some (recOf r.eecode r.firstname r.lastname i o)
    | _, _ => none

/-- The per-shift hour list used by `flag_excess_working_days`: the same loop
but keeping only rows with `total_hours > 0`. -/
def hourRecsPos (prs : List ParsedRow) : List HourRec :=
  prs.filterMap fun r =>
    match r.inT, r.outT with
    | some i, some o =>
        let hr := recOf r.eecode r.firstname r.lastname i o
        if 0 < hr.secs then some hr else none
    | _, _ => none

/-- Insertion step of the sort mirroring the sorted pandas group keys. -/
def insertLe (le : α → α → Bool) (a : α) : List α → List α
  | [] => [a]
  | b :: l => if le a b then a :: b :: l else b :: insertLe le a l

/-- Insertion sort by a boolean comparator. -/
def sortLe (le : α → α → Bool) : List α → List α
  | [] => []
  | a :: l => insertLe le a (sortLe le l)

/-- Code-point comparison of characters. -/
def charLt (a b : Char) : Bool := decide (a.toNat < b.toNat)

/-- Lexicographic strict order on character lists. -/
def chLt : List Char → List Char → Bool
  | [], [] => false
  | [], _ :: _ => true
  | _ :: _, [] => false
  | a :: as, b :: bs => charLt a b || (a == b && chLt as bs)

/-- Lexicographic strict order on strings (kernel-evaluable rendering of the
pandas string order). -/
def strLt (a b : String) : Bool := chLt a.data b.data

/-- Daily grouping key `(EECode, Firstname, Lastname, Date)`. -/
structure DayKey where
  ee : String
  fn : String
  ln : String
  date : Int
deriving DecidableEq

/-- pandas groupby key order for `(EECode, Firstname, Lastname, Date)`. -/
def dayKeyLe (a b : DayKey) : Bool :=
  strLt a.ee b.ee || (a.ee == b.ee &&
    (strLt a.fn b.fn || (a.fn == b.fn &&
      (strLt a.ln b.ln || (a.ln == b.ln && decide (a.date ≤ b.date))))))

/-- Key order of the `sort_values` call on (EECode, Lastname, Firstname, Date)
used by `flag_low_rest_hours`. -/
def restKeyLe (a b : DayKey) : Bool :=
  strLt a.ee b.ee || (a.ee == b.ee &&
    (strLt a.ln b.ln || (a.ln == b.ln &&
      (strLt a.fn b.fn || (a.fn == b.fn && decide (a.date ≤ b.date))))))

/-- The daily key of an hour record. -/
def dayKeyOf (r : HourRec) : DayKey := ⟨r.ee, r.fn, r.ln, r.date⟩

/-- Sum of the durations (seconds) of the records with a given daily key. -/
def secsSum (recs : List HourRec) (k : DayKey) : Int :=
  ((recs.filter fun r => decide (dayKeyOf r = k)).map (·.secs)).sum

/-- The groupby aggregation on (EECode, Firstname, Lastname, Date) summing the
hours column: one `(key, total seconds)` row per distinct key, keys in sorted
order. -/
def dailyTotals (recs : List HourRec) : List (DayKey × Int) :=
  (sortLe dayKeyLe (recs.map dayKeyOf).dedup).map fun k => (k, secsSum recs k)

/-- One entry of the flagged excess-daily-hours list (`Total_Hours` is kept in
hundredths of an hour). -/
structure ExcessEntry where
  name : String
  date : Int
  totalHoursCenti : Int
deriving DecidableEq

/-- The output dict built for a flagged daily total. -/
def mkExcessEntry (p : DayKey × Int) : ExcessEntry :=
  ⟨p.1.fn ++ " " ++ p.1.ln, p.1.date, round2h p.2⟩

/-- Core of `flag_excess_hours` after the datetime conversion: sum hours per
`(EECode, Firstname, Lastname, Date)` and flag totals `> 12` hours. -/
def flagExcessHoursOf (prs : List ParsedRow) : List ExcessEntry :=
  ((dailyTotals (hourRecsAll prs)).filter fun p => decide (12 * 3600 < p.2)).map
    mkExcessEntry

/-- Method `PayrollService.flag_excess_hours`: converts both punch columns (which may
raise), then flags daily totals above 12 hours. -/
def flag_excess_hours (rows : List Row) : Except PayrollError (List ExcessEntry) :=
  (toDatetimeRows rows).map flagExcessHoursOf

/-- One row of the `daily_punches` frame of `flag_low_rest_hours`: first
punch-in and last punch-out per `(EECode, Firstname, Lastname, Date)` group.
`lastOut` is `none` when every out-punch of the group is `NaT`. -/
structure RestDaily where
  ee : String
  fn : String
  ln : String
  date : Int
  firstIn : Int
  lastOut : Option Int
deriving DecidableEq

/-- Minimum of a list of integers (`0` on the empty list, which never occurs
at use sites). -/
def minD : List Int → Int
  | [] => 0
  | x :: xs => xs.foldl min x

/-- Maximum of a list of integers (`0` on the empty list, which never occurs
at use sites). -/
def maxD : List Int → Int
  | [] => 0
  | x :: xs => xs.foldl max x

/-- pandas `max` with `skipna`: maximum of the non-`NaT` values, `NaT` when
there are none. -/
def maxOpt (xs : List Int) : Option Int :=
  match xs with
  | [] => none
  | x :: xs => some (xs.foldl max x)

/-- The grouping material of `flag_low_rest_hours`: per row with a parsed
in-punch, its daily key (the work date is the in-punch date), the in-punch
and the optional out-punch.  Rows whose in-punch is `NaT` have a `NaT` date
and are dropped by the pandas groupby. -/
def restRows (prs : List ParsedRow) : List (DayKey × Int × Option Int) :=
  prs.filterMap fun r =>
    match r.inT with
    | some i => some (⟨r.eecode, r.firstname, r.lastname, dateOf i⟩, i, r.outT)
    | none => none

/-- The `daily_punches` rows: grouped by `(EECode, Firstname, Lastname, Date)`
(first in = min, last out = max), then sorted by
`(EECode, Lastname, Firstname, Date)` — the key tuple is unique per row, so
the sort order is total. -/
def restDailies (prs : List ParsedRow) : List RestDaily :=
  let rows := restRows prs
  (sortLe restKeyLe ((rows.map (·.1)).dedup)).map fun k =>
    let sub := rows.filter fun r => decide (r.1 = k)
    ⟨k.ee, k.fn, k.ln, k.date,
      minD (sub.map fun r => r.2.1),
      maxOpt (sub.filterMap fun r => r.2.2)⟩

/-- Adjacent pairs `(previous, current)` of the sorted `daily_punches` rows,
i.e. the `idx - 1, idx` pairs of the Python loop. -/
def restPairs (prs : List ParsedRow) : List (RestDaily × RestDaily) :=
  (restDailies prs).zip (restDailies prs).tail

/-- One entry of the flagged low-rest list (`Rest_Hours` in hundredths of an
hour). -/
structure RestEntry where
  name : String
  date : Int
  restHoursCenti : Int
  prevLastOut : Int
  curFirstIn : Int
deriving DecidableEq

/-- The body of the consecutive-days loop of `flag_low_rest_hours`: flag the
pair when the triple `(EECode, Lastname, Firstname)` matches, the previous
last-out is present, and `0 ≤ rest < 10` hours. -/
def flagPair (prev cur : RestDaily) : Option RestEntry :=
  if prev.ee = cur.ee ∧ prev.ln = cur.ln ∧ prev.fn = cur.fn then
    match prev.lastOut with
    | none => none
    | some po =>
        let restS := cur.firstIn - po
        if 0 ≤ restS ∧ restS < 10 * 3600 then
          some ⟨cur.fn ++ " " ++ cur.ln, cur.date, round2h restS, po, cur.firstIn⟩
        else none
  else none

/-- Core of `flag_low_rest_hours` after the datetime conversion. -/
def flagLowRestOf (prs : List ParsedRow) : List RestEntry :=
  (restPairs prs).filterMap fun pc => flagPair pc.1 pc.2

/-- Method `PayrollService.flag_low_rest_hours`. -/
def flag_low_rest_hours (rows : List Row) : Except PayrollError (List RestEntry) :=
  (toDatetimeRows rows).map flagLowRestOf

/-- Weekly grouping key `(EECode, Firstname, Lastname, Week)`, the week named
by its Monday. -/
structure WeekKey where
  ee : String
  fn : String
  ln : String
  week : Int
deriving DecidableEq

/-- pandas groupby key order for `(EECode, Firstname, Lastname, Week)`. -/
def weekKeyLe (a b : WeekKey) : Bool :=
  strLt a.ee b.ee || (a.ee == b.ee &&
    (strLt a.fn b.fn || (a.fn == b.fn &&
      (strLt a.ln b.ln || (a.ln == b.ln && decide (a.week ≤ b.week))))))

/-- The weekly key of an hour record (the pandas `to_period` weekly key). -/
def weekKeyOf (r : HourRec) : WeekKey := ⟨r.ee, r.fn, r.ln, weekKey r.date⟩

/-- The date-range filter applied by `flag_weekly_excess_hours` and
`flag_excess_working_days`: keep `Date >= start_date` (when given), then
`Date <= end_date` (when given). -/
def rangeFilter (s? e? : Option Int) (recs : List HourRec) : List HourRec :=
  let recs :=
    match s? with
    | some s => recs.filter fun r => decide (s ≤ r.date)
    | none => recs
  match e? with
  | some e => recs.filter fun r => decide (r.date ≤ e)
  | none => recs

/-- One row of the `weekly_summary` frame: total seconds plus the minimum and
maximum work date inside the `(person, week)` group. -/
structure WeekGroup where
  key : WeekKey
  secs : Int
  firstD : Int
  lastD : Int
deriving DecidableEq

/-- The groupby aggregation on (EECode, Firstname, Lastname, Week): sum of the
hours column, minimum and maximum of the date column. -/
def weekGroups (recs : List HourRec) : List WeekGroup :=
  (sortLe weekKeyLe ((recs.map weekKeyOf).dedup)).map fun k =>
    let sub := recs.filter fun r => decide (weekKeyOf r = k)
    ⟨k, (sub.map (·.secs)).sum, minD (sub.map (·.date)), maxD (sub.map (·.date))⟩

/-- One entry of the flagged weekly-excess list: `Week_Start` / `Week_End` are
the min/max work date of the group (not the calendar week bounds);
`Total_Weekly_Hours` in hundredths of an hour. -/
structure WeeklyEntry where
  name : String
  weekStart : Int
  weekEnd : Int
  totalWeeklyHoursCenti : Int
deriving DecidableEq

/-- The output dict built for a flagged week group. -/
def mkWeeklyEntry (g : WeekGroup) : WeeklyEntry :=
  ⟨g.key.fn ++ " " ++ g.key.ln, g.firstD, g.lastD, round2h g.secs⟩

/-- Core of `flag_weekly_excess_hours` after the datetime conversion: range-filter the
per-shift records, group per person and Monday-start week, flag weekly totals
`>= 60` hours. -/
def flagWeeklyOf (prs : List ParsedRow) (s? e? : Option Int) : List WeeklyEntry :=
  ((weekGroups (rangeFilter s? e? (hourRecsAll prs))).filter fun g =>
      decide (60 * 3600 ≤ g.secs)).map mkWeeklyEntry

/-- Method `PayrollService.flag_weekly_excess_hours`. -/
def flag_weekly_excess_hours (rows : List Row) (s? e? : Option Int) :
    Except PayrollError (List WeeklyEntry) :=
  (toDatetimeRows rows).map (flagWeeklyOf · s? e?)

/-- The holiday exclusion of `flag_excess_working_days`: applied only when the
holiday list is non-empty (the Python `if exclude_holidays:` truthiness test),
it drops records whose work date is a holiday. -/
def holidayFilter (hols : List Int) (recs : List HourRec) : List HourRec :=
  if hols.isEmpty then recs
  else recs.filter fun r => decide (r.date ∉ hols)

/-- The record pipeline of `flag_excess_working_days`: positive-duration
shifts, then the date range filter, then the holiday exclusion. -/
def daysRecs (prs : List ParsedRow) (s? e? : Option Int) (hols : List Int) :
    List HourRec :=
  holidayFilter hols (rangeFilter s? e? (hourRecsPos prs))

/-- The weekly key of a daily-grouped row. -/
def dayWeekKeyOf (p : DayKey × Int) : WeekKey :=
  ⟨p.1.ee, p.1.fn, p.1.ln, weekKey p.1.date⟩

/-- One row of the `days_per_week` frame: the number of distinct work dates in
the `(person, week)` group plus the first and last work date of the group. -/
structure DayWeekGroup where
  key : WeekKey
  days : Nat
  firstD : Int
  lastD : Int
deriving DecidableEq

/-- The groupby aggregation on (EECode, Firstname, Lastname, Week) over the
daily-grouped rows: count, minimum and maximum of the date column. -/
def weekDayGroups (dailies : List (DayKey × Int)) : List DayWeekGroup :=
  (sortLe weekKeyLe ((dailies.map dayWeekKeyOf).dedup)).map fun k =>
    let sub := dailies.filter fun p => decide (dayWeekKeyOf p = k)
    ⟨k, sub.length, minD (sub.map (·.1.date)), maxD (sub.map (·.1.date))⟩

/-- One entry of the flagged excess-working-days list. -/
structure DaysEntry where
  name : String
  daysWorked : Nat
  week : Int
  firstDay : Int
  lastDay : Int
deriving DecidableEq

/-- The output dict built for a flagged week of working days. -/
def mkDaysEntry (g : DayWeekGroup) : DaysEntry :=
  ⟨g.key.fn ++ " " ++ g.key.ln, g.days, g.key.week, g.firstD, g.lastD⟩

/-- Core of `flag_excess_working_days` after the datetime conversion: positive-duration
shifts, range and holiday filters, daily grouping, weekly day counting, flag
weeks with more than 6 distinct working days. -/
def flagDaysOf (prs : List ParsedRow) (s? e? : Option Int) (hols : List Int) :
    List DaysEntry :=
  ((weekDayGroups (dailyTotals (daysRecs prs s? e? hols))).filter fun g =>
      decide (6 < g.days)).map mkDaysEntry

/-- Method `PayrollService.flag_excess_working_days`. -/
def flag_excess_working_days (rows : List Row) (s? e? : Option Int)
    (hols : List Int) : Except PayrollError (List DaysEntry) :=
  (toDatetimeRows rows).map (flagDaysOf · s? e? hols)

/-- The summary counters of `analyze`. -/
structure Summary where
  rowsReceived : Nat
  employees : Nat
  excessCount : Nat
  restCount : Nat
  weeklyCount : Nat
  daysCount : Nat
deriving DecidableEq

/-- The `AnalysisResult` value built by `analyze`. -/
structure AnalysisResult where
  flaggedExcess : List ExcessEntry
  flaggedRest : List RestEntry
  flaggedWeekly : List WeeklyEntry
  flaggedDays : List DaysEntry
  summary : Summary
  reportPath : Option String
  warnings : List String
deriving DecidableEq

/-- The `start_date > end_date` guard of `analyze` (only checked when both
bounds are given). -/
def rangeBad (s? e? : Option Int) : Bool :=
  match s?, e? with
  | some s, some e => decide (e < s)
  | _, _ => false

/-- Method `PayrollService.analyze`: validate the date range, run the four flag
methods (each converts the punch columns itself and the first conversion
failure aborts the analysis), then assemble the result.  The report write is
modelled as succeeding, so no warning is ever appended. -/
def analyze (rows : List Row) (s? e? : Option Int) (hols : List Int)
    (reportDir requestId : String) : Except PayrollError AnalysisResult :=
  if rangeBad s? e? then .error .invalidRange
  else do
    let fe ← flag_excess_hours rows
    let fr ← flag_low_rest_hours rows
    let fw ← flag_weekly_excess_hours rows s? e?
    let fd ← flag_excess_working_days rows s? e? hols
    pure
      { flaggedExcess := fe
        flaggedRest := fr
        flaggedWeekly := fw
        flaggedDays := fd
        summary :=
          ⟨rows.length, ((rows.map Row.eecode).dedup).length,
            fe.length, fr.length, fw.length, fd.length⟩
        reportPath := some (reportDir ++ "/payroll_report_" ++ requestId ++ ".xlsx")
        warnings := [] }

/-- The analysis output with the request-scoped report artifact path erased;
used to compare two runs up to the request identifier. -/
def stripReport (res : AnalysisResult) : AnalysisResult :=
  { res with reportPath := none }

/-- Conjunction of the two optional date-range tests as one boolean. -/
def inRangeB (s? e? : Option Int) (d : Int) : Bool :=
  (match s? with
   | some s => decide (s ≤ d)
   | none => true) &&
  (match e? with
   | some e => decide (d ≤ e)
   | none => true)

/-- Whether a parsed row is a zero-duration punch (both timestamps present and
the computed duration is exactly zero). -/
def isZeroShift (r : ParsedRow) : Bool :=
  match r.inT, r.outT with
  | some i, some o => decide (secsOf i o = 0)
  | _, _ => false

/-- The date-range test lifted to a parsed row (on its work date, the date of
the in-punch); a row without an in-punch carries no work date and is kept. -/
def rowInRange (s? e? : Option Int) (r : ParsedRow) : Bool :=
  match r.inT with
  | some i => inRangeB s? e? (dateOf i)
  | none => true

/-- The holiday test lifted to a parsed row (on its work date); a row without
an in-punch carries no work date and is kept. -/
def rowNotHoliday (hols : List Int) (r : ParsedRow) : Bool :=
  match r.inT with
  | some i => decide (dateOf i ∉ hols)
  | none => true




/-! ## Toolkit lemmas -/

theorem mem_insertLe {le : α → α → Bool} {a x : α} {l : List α} :
    x ∈ insertLe le a l ↔ x = a ∨ x ∈ l := by
  induction l with
  | nil => simp [insertLe]
  | cons b l ih =>
      simp only [insertLe]
      split
      · simp
      · simp only [List.mem_cons, ih]
        tauto

theorem mem_sortLe {le : α → α → Bool} {x : α} {l : List α} :
    x ∈ sortLe le l ↔ x ∈ l := by
  induction l with
  | nil => simp [sortLe]
  | cons a l ih => simp [sortLe, mem_insertLe, ih]

theorem filterMap_filter_comm (f : α → Option β) (p : α → Bool) (q : β → Bool)
    (h : ∀ a b, f a = some b → p a = q b) :
    ∀ l : List α, (l.filter p).filterMap f = (l.filterMap f).filter q := by
  intro l
  induction l with
  | nil => rfl
  | cons a l ih =>
      cases hp : p a <;> cases hf : f a <;>
        simp only [List.filter_cons, List.filterMap_cons, hp, hf, ih,
          if_true, if_false, Bool.false_eq_true, ite_false, ite_true]
      · rename_i b
        have : q b = false := (h a b hf) ▸ hp
        simp [this]
      · rename_i b
        have : q b = true := (h a b hf) ▸ hp
        simp [this, hf, List.filterMap_cons]

theorem foldl_min_mem (xs : List Int) : ∀ x : Int, xs.foldl min x ∈ x :: xs := by
  induction xs with
  | nil => intro x; simp
  | cons y ys ih =>
      intro x
      have h := ih (min x y)
      rcases min_choice x y with hm | hm <;>
        simp only [List.foldl_cons] <;> rw [hm] at h ⊢ <;>
        simp only [List.mem_cons] at h ⊢ <;> tauto

theorem foldl_max_mem (xs : List Int) : ∀ x : Int, xs.foldl max x ∈ x :: xs := by
  induction xs with
  | nil => intro x; simp
  | cons y ys ih =>
      intro x
      have h := ih (max x y)
      rcases max_choice x y with hm | hm <;>
        simp only [List.foldl_cons] <;> rw [hm] at h ⊢ <;>
        simp only [List.mem_cons] at h ⊢ <;> tauto

theorem minD_mem {l : List Int} (h : l ≠ []) : minD l ∈ l := by
  cases l with
  | nil => exact absurd rfl h
  | cons x xs => exact foldl_min_mem xs x

theorem maxD_mem {l : List Int} (h : l ≠ []) : maxD l ∈ l := by
  cases l with
  | nil => exact absurd rfl h
  | cons x xs => exact foldl_max_mem xs x

theorem foldl_min_le (xs : List Int) : ∀ x y : Int, y ∈ x :: xs → xs.foldl min x ≤ y := by
  induction xs with
  | nil => intro x y hy; simp at hy; simp [hy]
  | cons z zs ih =>
      intro x y hy
      simp only [List.mem_cons] at hy
      rcases hy with rfl | rfl | hy
      · exact le_trans (ih (min y z) (min y z) (by simp)) (min_le_left y z)
      · exact le_trans (ih (min x y) (min x y) (by simp)) (min_le_right x y)
      · exact ih (min x z) y (by simp [hy])

theorem le_foldl_max (xs : List Int) : ∀ x y : Int, y ∈ x :: xs → y ≤ xs.foldl max x := by
  induction xs with
  | nil => intro x y hy; simp at hy; simp [hy]
  | cons z zs ih =>
      intro x y hy
      simp only [List.mem_cons] at hy
      rcases hy with rfl | rfl | hy
      · exact le_trans (le_max_left y z) (ih (max y z) (max y z) (by simp))
      · exact le_trans (le_max_right x y) (ih (max x y) (max x y) (by simp))
      · exact ih (max x z) y (by simp [hy])

theorem minD_le {l : List Int} {y : Int} (hy : y ∈ l) : minD l ≤ y := by
  cases l with
  | nil => simp at hy
  | cons x xs => exact foldl_min_le xs x y hy

theorem le_maxD {l : List Int} {y : Int} (hy : y ∈ l) : y ≤ maxD l := by
  cases l with
  | nil => simp at hy
  | cons x xs => exact le_foldl_max xs x y hy

theorem hoursQ_nonneg_iff (s : Int) : 0 ≤ hoursQ s ↔ 0 ≤ s := by
  unfold hoursQ
  rw [le_div_iff₀ (by norm_num : (0 : ℚ) < 3600)]
  constructor
  · intro h; exact_mod_cast by simpa using h
  · intro h; simpa using (by exact_mod_cast h : (0 : ℚ) ≤ (s : ℚ))

theorem hoursQ_neg_iff (s : Int) : hoursQ s < 0 ↔ s < 0 := by
  rw [← not_le, ← not_le, hoursQ_nonneg_iff]

theorem lt_hoursQ_iff (c s : Int) : (c : ℚ) < hoursQ s ↔ c * 3600 < s := by
  unfold hoursQ
  rw [lt_div_iff₀ (by norm_num : (0 : ℚ) < 3600)]
  exact_mod_cast Iff.rfl

theorem le_hoursQ_iff (c s : Int) : (c : ℚ) ≤ hoursQ s ↔ c * 3600 ≤ s := by
  unfold hoursQ
  rw [le_div_iff₀ (by norm_num : (0 : ℚ) < 3600)]
  exact_mod_cast Iff.rfl

theorem hoursQ_lt_iff (c s : Int) : hoursQ s < (c : ℚ) ↔ s < c * 3600 := by
  unfold hoursQ
  rw [div_lt_iff₀ (by norm_num : (0 : ℚ) < 3600)]
  exact_mod_cast Iff.rfl

theorem weekKey_le (d : Int) : weekKey d ≤ d ∧ d ≤ weekKey d + 6 := by
  unfold weekKey
  have h0 : 0 ≤ d.emod 7 := Int.emod_nonneg d (by norm_num)
  have h7 : d.emod 7 < 7 := Int.emod_lt_of_pos d (by norm_num)
  omega

theorem toDatetimeRows_of_hasBad {rows : List Row} (h : hasBad rows = true) :
    toDatetimeRows rows = .error .parseError := by
  induction rows with
  | nil => simp [hasBad] at h
  | cons r rs ih =>
      simp only [hasBad, List.any_cons, Bool.or_eq_true] at h
      cases hi : r.inCell <;> cases ho : r.outCell <;>
        simp only [toDatetimeRows, cellDT, hi, ho]
      all_goals
        first
        | rfl
        | · have hrs : toDatetimeRows rs = .error .parseError := by
              apply ih
              simp only [Cell.isBad, hi, ho] at h
              simpa [hasBad] using h
            rw [hrs]

theorem hourRecsPos_eq (prs : List ParsedRow) :
    hourRecsPos prs = (hourRecsAll prs).filter fun r => decide (0 < r.secs) := by
  induction prs with
  | nil => rfl
  | cons r rs ih =>
      simp only [hourRecsPos, hourRecsAll, List.filterMap_cons] at *
      cases hi : r.inT with
      | none => cases ho : r.outT <;> simp [hi, ho, ih]
      | some i =>
          cases ho : r.outT with
          | none => simp [hi, ho, ih]
          | some o =>
              by_cases hpos : 0 < (recOf r.eecode r.firstname r.lastname i o).secs
              · simp [hi, ho, hpos, List.filter_cons, ih]
              · simp [hi, ho, hpos, List.filter_cons, ih]

theorem rangeFilter_eq (s? e? : Option Int) (recs : List HourRec) :
    rangeFilter s? e? recs = recs.filter fun r => inRangeB s? e? r.date := by
  cases s? <;> cases e? <;>
    simp [rangeFilter, inRangeB, List.filter_filter, Bool.and_comm]

theorem holidayFilter_eq (hols : List Int) (recs : List HourRec) :
    holidayFilter hols recs = recs.filter fun r => decide (r.date ∉ hols) := by
  unfold holidayFilter
  split
  · rename_i hemp
    have : hols = [] := by
      cases hols with
      | nil => rfl
      | cons a l => simp [List.isEmpty] at hemp
    simp [this]
  · rfl

theorem filter_absorb {p q : α → Bool} (h : ∀ a, p a = true → q a = true)
    (l : List α) : (l.filter p).filter q = l.filter p := by
  induction l with
  | nil => rfl
  | cons a l ih =>
      rw [List.filter_cons]
      cases hp : p a with
      | false => simpa using ih
      | true =>
          simp only [if_true]
          rw [List.filter_cons, h a hp, if_pos rfl, ih]

theorem filter_and (p q : α → Bool) (l : List α) :
    (l.filter p).filter q = l.filter fun a => p a && q a := by
  induction l with
  | nil => rfl
  | cons a l ih =>
      rw [List.filter_cons, List.filter_cons]
      cases hp : p a with
      | false => simpa using ih
      | true =>
          simp only [Bool.true_and, if_true]
          rw [List.filter_cons]
          cases hq : q a <;> simp [hq, ih]

theorem hourRecsAll_row_filter (prs : List ParsedRow) (p : ParsedRow → Bool)
    (q : HourRec → Bool)
    (hagree : ∀ r i o, r.inT = some i → r.outT = some o →
        p r = q (recOf r.eecode r.firstname r.lastname i o)) :
    hourRecsAll (prs.filter p) = (hourRecsAll prs).filter q := by
  unfold hourRecsAll
  apply filterMap_filter_comm
  intro a b hf
  cases hi : a.inT <;> cases ho : a.outT <;> rw [hi, ho] at hf <;>
    simp only [] at hf
  · exact absurd hf (by simp)
  · exact absurd hf (by simp)
  · exact absurd hf (by simp)
  · rename_i i o
    have hb : b = recOf a.eecode a.firstname a.lastname i o := by
      cases hf; rfl
    rw [hb]
    exact hagree a i o hi ho

theorem hourRecsPos_row_filter (prs : List ParsedRow) (p : ParsedRow → Bool)
    (q : HourRec → Bool)
    (hagree : ∀ r i o, r.inT = some i → r.outT = some o →
        p r = q (recOf r.eecode r.firstname r.lastname i o)) :
    hourRecsPos (prs.filter p) = (hourRecsPos prs).filter q := by
  unfold hourRecsPos
  apply filterMap_filter_comm
  intro a b hf
  cases hi : a.inT <;> cases ho : a.outT <;> rw [hi, ho] at hf <;>
    simp only [] at hf
  · exact absurd hf (by simp)
  · exact absurd hf (by simp)
  · exact absurd hf (by simp)
  · rename_i i o
    by_cases hpos : 0 < (recOf a.eecode a.firstname a.lastname i o).secs
    · rw [if_pos hpos] at hf
      have hb : b = recOf a.eecode a.firstname a.lastname i o := by
        cases hf; rfl
      rw [hb]
      exact hagree a i o hi ho
    · rw [if_neg hpos] at hf
      exact absurd hf (by simp)

theorem mem_weekGroups {recs : List HourRec} {g : WeekGroup}
    (hg : g ∈ weekGroups recs) :
    ∃ k, (∃ r ∈ recs, weekKeyOf r = k) ∧
      g = ⟨k,
        (((recs.filter fun r => decide (weekKeyOf r = k)).map (·.secs)).sum),
        minD ((recs.filter fun r => decide (weekKeyOf r = k)).map (·.date)),
        maxD ((recs.filter fun r => decide (weekKeyOf r = k)).map (·.date))⟩ := by
  unfold weekGroups at hg
  rw [List.mem_map] at hg
  obtain ⟨k, hk, hgk⟩ := hg
  rw [mem_sortLe, List.mem_dedup, List.mem_map] at hk
  obtain ⟨r, hr, rfl⟩ := hk
  exact ⟨_, ⟨r, hr, rfl⟩, hgk.symm⟩

/-! ## Claim theorems -/

/-- Claim C8: when both a start date and an end date are given and the start is
later than the end, `analyze` fails with the invalid-range error before any
aggregation occurs — for every dataset, even one whose punch cells could not be
converted — so no flagged lists are produced. -/
theorem analyze_invalid_range (rows : List Row) (s e : Int) (hols : List Int)
    (dir id : String) (h : e < s) :
    analyze rows (some s) (some e) hols dir id = .error .invalidRange := by
  have hb : rangeBad (some s) (some e) = true := by simp [rangeBad, h]
  simp [analyze, hb]

/-- Witness: `analyze_invalid_range` at a concrete call. -/
theorem analyze_invalid_range_witness :
    analyze [] (some 5) (some 3) [] "reports" "req1" = .error .invalidRange :=
  analyze_invalid_range [] 5 3 [] "reports" "req1" (by decide)

/-- Claim C9: the analysis is a pure function of the input rows and the
parameters — two runs on identical input and parameters agree on the four
flagged lists, the summary counts and the warnings, for any two request
identifiers (only the report artifact path, which embeds the identifier, is
excluded from the comparison). -/
theorem analyze_deterministic (rows : List Row) (s? e? : Option Int)
    (hols : List Int) (dir id1 id2 : String) :
    (analyze rows s? e? hols dir id1).map stripReport =
      (analyze rows s? e? hols dir id2).map stripReport := by
  unfold analyze
  by_cases hb : rangeBad s? e? = true
  · simp [hb]
  · simp only [Bool.not_eq_true] at hb
    simp only [hb, Bool.false_eq_true, if_false]
    cases htd : toDatetimeRows rows <;>
      simp [flag_excess_hours, flag_low_rest_hours, flag_weekly_excess_hours,
        flag_excess_working_days, htd, Except.map, stripReport,
        Bind.bind, Except.bind, pure, Except.pure]

/-- Claim C1: every flagged entry sits on the correct side of the boundary of
its own rule: an excess-daily entry comes from a daily total strictly above 12
hours; a low-rest entry comes from an adjacent pair whose rest is `≥ 0` and
strictly below 10 hours (a negative computed rest is never flagged); a
weekly-excess entry comes from a week group with at least 60 hours; an
excess-days entry comes from a week group with strictly more than 6 working
days. -/
theorem flags_respect_thresholds (prs : List ParsedRow) (s? e? : Option Int)
    (hols : List Int) :
    (∀ en ∈ flagExcessHoursOf prs,
        ∃ p ∈ dailyTotals (hourRecsAll prs),
          (12 : ℚ) < hoursQ p.2 ∧ en = mkExcessEntry p) ∧
    (∀ en ∈ flagLowRestOf prs,
        ∃ pc ∈ restPairs prs, ∃ po, pc.1.lastOut = some po ∧
          0 ≤ hoursQ (pc.2.firstIn - po) ∧ hoursQ (pc.2.firstIn - po) < 10 ∧
          flagPair pc.1 pc.2 = some en) ∧
    (∀ en ∈ flagWeeklyOf prs s? e?,
        ∃ g ∈ weekGroups (rangeFilter s? e? (hourRecsAll prs)),
          (60 : ℚ) ≤ hoursQ g.secs ∧ en = mkWeeklyEntry g) ∧
    (∀ en ∈ flagDaysOf prs s? e? hols,
        ∃ g ∈ weekDayGroups (dailyTotals (daysRecs prs s? e? hols)),
          6 < g.days ∧ en = mkDaysEntry g) := by
  refine ⟨?_, ?_, ?_, ?_⟩
  · intro en hen
    unfold flagExcessHoursOf at hen
    rw [List.mem_map] at hen
    obtain ⟨p, hp, rfl⟩ := hen
    rw [List.mem_filter] at hp
    obtain ⟨hmem, hlt⟩ := hp
    rw [decide_eq_true_eq] at hlt
    refine ⟨p, hmem, ?_, rfl⟩
    have h12 : ((12 : Int) : ℚ) < hoursQ p.2 :=
      (lt_hoursQ_iff 12 p.2).mpr (by exact_mod_cast hlt)
    exact_mod_cast h12
  · intro en hen
    unfold flagLowRestOf at hen
    rw [List.mem_filterMap] at hen
    obtain ⟨pc, hpc, hflag⟩ := hen
    have hshape : ∃ po, pc.1.lastOut = some po ∧
        0 ≤ pc.2.firstIn - po ∧ pc.2.firstIn - po < 10 * 3600 := by
      unfold flagPair at hflag
      split at hflag
      · cases hlo : pc.1.lastOut with
        | none => rw [hlo] at hflag; exact absurd hflag (by simp)
        | some po =>
            rw [hlo] at hflag
            simp only [] at hflag
            split at hflag
            · rename_i hguard
              exact ⟨po, rfl, hguard.1, hguard.2⟩
            · exact absurd hflag (by simp)
      · exact absurd hflag (by simp)
    obtain ⟨po, hlo, h0, h10⟩ := hshape
    refine ⟨pc, hpc, po, hlo, ?_, ?_, hflag⟩
    · exact (hoursQ_nonneg_iff _).mpr h0
    · have h10q : hoursQ (pc.2.firstIn - po) < ((10 : Int) : ℚ) :=
        (hoursQ_lt_iff 10 _).mpr (by exact_mod_cast h10)
      exact_mod_cast h10q
  · intro en hen
    unfold flagWeeklyOf at hen
    rw [List.mem_map] at hen
    obtain ⟨g, hg, rfl⟩ := hen
    rw [List.mem_filter] at hg
    obtain ⟨hmem, hge⟩ := hg
    rw [decide_eq_true_eq] at hge
    refine ⟨g, hmem, ?_, rfl⟩
    have h60 : ((60 : Int) : ℚ) ≤ hoursQ g.secs :=
      (le_hoursQ_iff 60 g.secs).mpr (by exact_mod_cast hge)
    exact_mod_cast h60
  · intro en hen
    unfold flagDaysOf at hen
    rw [List.mem_map] at hen
    obtain ⟨g, hg, rfl⟩ := hen
    rw [List.mem_filter] at hg
    obtain ⟨hmem, hgt⟩ := hg
    rw [decide_eq_true_eq] at hgt
    exact ⟨g, hmem, hgt, rfl⟩

/-- Witness: `flags_respect_thresholds` applied to a one-row dataset whose
single day totals 13.5 hours. -/
theorem flags_respect_thresholds_witness :
    ∃ p ∈ dailyTotals (hourRecsAll
        [⟨"E1", "A", "B", some (8*3600), some (21*3600 + 1800)⟩]),
      (12 : ℚ) < hoursQ p.2 ∧
        (⟨"A B", 0, 1350⟩ : ExcessEntry) = mkExcessEntry p :=
  (flags_respect_thresholds
      [⟨"E1", "A", "B", some (8*3600), some (21*3600 + 1800)⟩] none none []).1
    ⟨"A B", 0, 1350⟩ (by decide)

theorem hourRecsPos_filter_nonzero (prs : List ParsedRow) :
    hourRecsPos (prs.filter fun r => !(isZeroShift r)) = hourRecsPos prs := by
  rw [hourRecsPos_row_filter prs _ (fun rec => !(decide (rec.secs = 0)))]
  · rw [hourRecsPos_eq]
    apply filter_absorb
    intro rec h
    rw [decide_eq_true_eq] at h
    have hne : rec.secs ≠ 0 := by omega
    simp [hne]
  · intro r i o hi ho
    unfold isZeroShift
    rw [hi, ho]
    rfl

/-- Claim C10: a zero-duration shift (out-instant equal to the in-instant)
still contributes a record to the per-shift list feeding the daily and weekly
hour totals, but the working-days check keeps only shifts of strictly positive
duration, so deleting all zero-duration rows leaves the excess-working-days
output unchanged — a day made only of zero-duration punches never raises a
flagged day count. -/
theorem zero_duration_day_policy (prs : List ParsedRow) (s? e? : Option Int)
    (hols : List Int) :
    (∀ r ∈ prs, ∀ i o, r.inT = some i → r.outT = some o →
        recOf r.eecode r.firstname r.lastname i o ∈ hourRecsAll prs) ∧
    hourRecsPos prs = ((hourRecsAll prs).filter fun r => decide (0 < r.secs)) ∧
    flagDaysOf prs s? e? hols =
      flagDaysOf (prs.filter fun r => !(isZeroShift r)) s? e? hols := by
  refine ⟨?_, hourRecsPos_eq prs, ?_⟩
  · intro r hr i o hi ho
    unfold hourRecsAll
    rw [List.mem_filterMap]
    exact ⟨r, hr, by rw [hi, ho]⟩
  · unfold flagDaysOf daysRecs
    rw [hourRecsPos_filter_nonzero]

/-- Witness: `zero_duration_day_policy` — a zero-duration punch appears in the
per-shift list of the daily/weekly totals. -/
theorem zero_duration_day_policy_witness :
    recOf "E1" "A" "B" (9*3600) (9*3600) ∈
      hourRecsAll [⟨"E1", "A", "B", some (9*3600), some (9*3600)⟩] :=
  (zero_duration_day_policy
      [⟨"E1", "A", "B", some (9*3600), some (9*3600)⟩] none none []).1
    ⟨"E1", "A", "B", some (9*3600), some (9*3600)⟩ (by decide)
    (9*3600) (9*3600) rfl rfl

/-- Counterexample to claim C5 as stated: when the out-instant precedes the
in-instant by two full days, the single 24-hour correction leaves a negative
duration — there is no clamp to zero, so a `ShiftRecord` with negative
computed duration is produced. -/
theorem duration_clamp_counterexample :
    hourRecsAll [⟨"E1", "A", "B", some 172800, some 0⟩] =
      [⟨"E1", "A", "B", 2, -86400⟩] ∧ hoursOf 172800 0 < 0 := by
  constructor
  · decide
  · unfold hoursOf
    rw [hoursQ_neg_iff]
    decide

/-- Claim C5 (amended): the duration is `out - in` with 24 hours added exactly
once when the difference is negative, and there is no clamping: the result is
non-negative exactly when the out-instant is at most 24 hours before the
in-instant, and is strictly negative whenever the out-instant precedes the
in-instant by more than 24 hours. -/
theorem duration_midnight_no_clamp (i o : Int) :
    secsOf i o = (if o - i < 0 then o - i + 86400 else o - i) ∧
    (-86400 ≤ o - i → 0 ≤ hoursOf i o) ∧
    (o - i < -86400 → hoursOf i o < 0) := by
  refine ⟨by simp [secsOf, daySecs], ?_, ?_⟩
  · intro h
    unfold hoursOf
    rw [hoursQ_nonneg_iff]
    unfold secsOf daySecs
    dsimp only
    split <;> omega
  · intro h
    unfold hoursOf
    rw [hoursQ_neg_iff]
    unfold secsOf daySecs
    dsimp only
    split <;> omega

/-- Witness: `duration_midnight_no_clamp` at concrete instants — an ordinary
shift has non-negative duration, an out-instant more than 24 hours early
yields a negative one. -/
theorem duration_midnight_no_clamp_witness :
    0 ≤ hoursOf 0 3600 ∧ hoursOf 259200 3600 < 0 :=
  ⟨(duration_midnight_no_clamp 0 3600).2.1 (by decide),
   (duration_midnight_no_clamp 259200 3600).2.2 (by decide)⟩

/-- Counterexample to claim C6 as stated: two rows with the same employee code
but different last names, one day apart with only 7 hours of rest between
them.  Were the employee code the sole identity key, the pair would be flagged
for low rest; the code compares the full name triple, so nothing is flagged —
while the same data with identical names is flagged. -/
theorem identity_key_counterexample :
    flagLowRestOf
      [⟨"E1", "A", "X", some (8*3600), some (22*3600)⟩,
       ⟨"E1", "A", "Y", some (86400 + 5*3600), some (86400 + 15*3600)⟩] = [] ∧
    flagLowRestOf
      [⟨"E1", "A", "X", some (8*3600), some (22*3600)⟩,
       ⟨"E1", "A", "X", some (86400 + 5*3600), some (86400 + 15*3600)⟩] ≠ [] := by
  decide

/-- Claim C6 (amended): the rest-hours check matches consecutive daily rows on
the full triple (employee code, last name, first name) — names are part of the
identity key, and rows sharing a code but differing in a name are treated as
distinct employees (the daily grouping key likewise contains both names). -/
theorem identity_key_triple (prs : List ParsedRow) :
    ∀ en ∈ flagLowRestOf prs, ∃ pc ∈ restPairs prs,
      pc.1.ee = pc.2.ee ∧ pc.1.ln = pc.2.ln ∧ pc.1.fn = pc.2.fn ∧
      flagPair pc.1 pc.2 = some en := by
  intro en hen
  unfold flagLowRestOf at hen
  rw [List.mem_filterMap] at hen
  obtain ⟨pc, hpc, hflag⟩ := hen
  have htriple : pc.1.ee = pc.2.ee ∧ pc.1.ln = pc.2.ln ∧ pc.1.fn = pc.2.fn := by
    by_contra hne
    unfold flagPair at hflag
    rw [if_neg hne] at hflag
    exact absurd hflag (by simp)
  exact ⟨pc, hpc, htriple.1, htriple.2.1, htriple.2.2, hflag⟩

/-- Witness: `identity_key_triple` on a two-day dataset with 7 hours of rest
and identical name triples. -/
theorem identity_key_triple_witness :
    ∃ pc ∈ restPairs
        [⟨"E2", "A", "X", some (8*3600), some (22*3600)⟩,
         ⟨"E2", "A", "X", some (86400 + 5*3600), some (86400 + 15*3600)⟩],
      pc.1.ee = pc.2.ee ∧ pc.1.ln = pc.2.ln ∧ pc.1.fn = pc.2.fn ∧
      flagPair pc.1 pc.2 =
        some ⟨"A X", 1, 700, 22*3600, 86400 + 5*3600⟩ :=
  identity_key_triple
    [⟨"E2", "A", "X", some (8*3600), some (22*3600)⟩,
     ⟨"E2", "A", "X", some (86400 + 5*3600), some (86400 + 15*3600)⟩]
    ⟨"A X", 1, 700, 22*3600, 86400 + 5*3600⟩ (by decide)

/-- Counterexample to claim C4 as stated: one row with an unparseable in-time
among otherwise valid rows does not get skipped with a warning — the
column-wide datetime conversion fails and the whole analysis aborts. -/
theorem bad_row_counterexample :
    analyze
      [⟨"E1", "A", "B", .time (8*3600), .time (17*3600)⟩,
       ⟨"E2", "C", "D", .bad, .time 0⟩]
      none none [] "reports" "req2" = .error .parseError := by
  decide

/-- Claim C4 (amended): a row whose in-time or out-time fails to parse aborts
the whole analysis with a parse failure (no skipping, no count); and a
successful analysis carries an empty warnings list — no aggregate
dropped-rows warning exists. -/
theorem bad_row_hard_failure (rows : List Row) (s? e? : Option Int)
    (hols : List Int) (dir id : String) :
    (rangeBad s? e? = false → hasBad rows = true →
        analyze rows s? e? hols dir id = .error .parseError) ∧
    (∀ res, analyze rows s? e? hols dir id = .ok res → res.warnings = []) := by
  constructor
  · intro hrb hbad
    have htd := toDatetimeRows_of_hasBad hbad
    unfold analyze
    simp [hrb, flag_excess_hours, htd, Except.map, Bind.bind, Except.bind]
  · intro res h
    unfold analyze at h
    by_cases hrb : rangeBad s? e? = true
    · simp [hrb] at h
    · simp only [Bool.not_eq_true] at hrb
      simp only [hrb, Bool.false_eq_true, if_false] at h
      cases htd : toDatetimeRows rows with
      | error e =>
          simp [flag_excess_hours, htd, Except.map, Bind.bind, Except.bind] at h
      | ok prs =>
          simp only [flag_excess_hours, flag_low_rest_hours,
            flag_weekly_excess_hours, flag_excess_working_days, htd,
            Except.map, Bind.bind, Except.bind, pure, Except.pure] at h
          cases h
          rfl

/-- Witness: `bad_row_hard_failure` at a concrete call with one unparseable
cell. -/
theorem bad_row_hard_failure_witness :
    analyze [⟨"E3", "G", "H", .bad, .missing⟩] none none [] "reports" "req3"
      = .error .parseError :=
  (bad_row_hard_failure [⟨"E3", "G", "H", .bad, .missing⟩] none none []
      "reports" "req3").1 (by decide) (by decide)

/-- Counterexample to claim C3 as stated: a start date after every work date
in the data does not raise anything — the analysis succeeds and returns a
result. -/
theorem no_valid_data_counterexample :
    (analyze [⟨"E1", "A", "B", .time (8*3600), .time (21*3600)⟩]
        (some 40) none [] "reports" "req5").isOk = true := by
  decide

/-- Claim C3 (amended): when no shift record survives the start/end/holiday
filter, the analysis still succeeds — no `NoValidDataError` exists in the
code, and a normal result is returned.  In that situation the
excess-working-days list, the only list that applies the full filter, is
empty; the weekly-excess list is additionally empty whenever no record
survives the start/end range alone, but it ignores the holiday set and so may
stay non-empty when the emptiness is caused only by holidays; the unfiltered
daily and rest checks still run over all records. -/
theorem empty_after_filter_succeeds (rows : List Row) (prs : List ParsedRow)
    (s? e? : Option Int) (hols : List Int) (dir id : String)
    (hparse : toDatetimeRows rows = .ok prs)
    (hrb : rangeBad s? e? = false)
    (hafter : holidayFilter hols (rangeFilter s? e? (hourRecsAll prs)) = []) :
    ∃ res, analyze rows s? e? hols dir id = .ok res ∧
      res.flaggedDays = [] ∧
      (rangeFilter s? e? (hourRecsAll prs) = [] → res.flaggedWeekly = []) := by
  have hafterP : ∀ r ∈ hourRecsAll prs, inRangeB s? e? r.date = true →
      (decide (r.date ∉ hols) : Bool) = false := by
    rw [holidayFilter_eq, rangeFilter_eq, List.filter_eq_nil_iff] at hafter
    intro r hr hir
    have hrmem : r ∈ (hourRecsAll prs).filter fun r => inRangeB s? e? r.date :=
      List.mem_filter.mpr ⟨hr, hir⟩
    have := hafter r hrmem
    simpa using this
  have hdays : flagDaysOf prs s? e? hols = [] := by
    unfold flagDaysOf daysRecs
    have hrecs : holidayFilter hols (rangeFilter s? e? (hourRecsPos prs)) = [] := by
      rw [holidayFilter_eq, rangeFilter_eq, hourRecsPos_eq,
        List.filter_eq_nil_iff]
      intro r hr
      rw [List.mem_filter] at hr
      obtain ⟨hr1, hir⟩ := hr
      rw [List.mem_filter] at hr1
      have := hafterP r hr1.1 hir
      simp [this]
    rw [hrecs]
    rfl
  have hweekly : rangeFilter s? e? (hourRecsAll prs) = [] →
      flagWeeklyOf prs s? e? = [] := by
    intro hr
    unfold flagWeeklyOf
    rw [hr]
    rfl
  refine
    ⟨{ flaggedExcess := flagExcessHoursOf prs
       flaggedRest := flagLowRestOf prs
       flaggedWeekly := flagWeeklyOf prs s? e?
       flaggedDays := flagDaysOf prs s? e? hols
       summary :=
         ⟨rows.length, ((rows.map Row.eecode).dedup).length,
           (flagExcessHoursOf prs).length, (flagLowRestOf prs).length,
           (flagWeeklyOf prs s? e?).length,
           (flagDaysOf prs s? e? hols).length⟩
       reportPath := some (dir ++ "/payroll_report_" ++ id ++ ".xlsx")
       warnings := [] }, ?_, hdays, hweekly⟩
  unfold analyze
  simp [hrb, flag_excess_hours, flag_low_rest_hours,
    flag_weekly_excess_hours, flag_excess_working_days, hparse,
    Except.map, Bind.bind, Except.bind, pure, Except.pure]

/-- Witness: `empty_after_filter_succeeds` at a concrete one-row dataset whose
only work date is in the holiday set, so nothing survives the full filter
(holiday-caused emptiness). -/
theorem empty_after_filter_succeeds_witness :
    ∃ res, analyze [⟨"E1", "A", "B", .time (8*3600), .time (21*3600)⟩]
        none none [0] "reports" "req6" = .ok res ∧
      res.flaggedDays = [] ∧
      (rangeFilter none none (hourRecsAll
          [⟨"E1", "A", "B", some (8*3600), some (21*3600)⟩]) = [] →
        res.flaggedWeekly = []) :=
  empty_after_filter_succeeds
    [⟨"E1", "A", "B", .time (8*3600), .time (21*3600)⟩]
    [⟨"E1", "A", "B", some (8*3600), some (21*3600)⟩]
    none none [0] "reports" "req6" (by decide) (by decide) (by decide)

/-- Counterexample to claim C7 as stated: an employee working Tuesday through
Saturday (days 1..5 of a Monday-0 week), 13 hours each, is flagged for weekly
excess, but the reported week start is Tuesday (day 1) and the week end is
Saturday (day 5) — not the Monday of the ISO week (day 0) and not
Monday + 6. -/
theorem week_bounds_counterexample :
    flagWeeklyOf
      [⟨"E1", "A", "B", some (1*86400 + 8*3600), some (1*86400 + 21*3600)⟩,
       ⟨"E1", "A", "B", some (2*86400 + 8*3600), some (2*86400 + 21*3600)⟩,
       ⟨"E1", "A", "B", some (3*86400 + 8*3600), some (3*86400 + 21*3600)⟩,
       ⟨"E1", "A", "B", some (4*86400 + 8*3600), some (4*86400 + 21*3600)⟩,
       ⟨"E1", "A", "B", some (5*86400 + 8*3600), some (5*86400 + 21*3600)⟩]
      none none
      = [⟨"A B", 1, 5, 6500⟩] ∧
    weekKey 1 = 0 ∧ (1 : Int) ≠ 0 ∧ (5 : Int) ≠ 0 + 6 := by
  decide

/-- Claim C7 (amended): the group of a flagged weekly entry is keyed by the
Monday of the ISO week (`date - weekday index`), but the reported week start
and week end are the earliest and latest work dates of the employee within
that week group — both lying inside the Monday-to-Monday+6 window rather than being
pinned to its ends. -/
theorem week_bounds_min_max (prs : List ParsedRow) (s? e? : Option Int) :
    ∀ en ∈ flagWeeklyOf prs s? e?,
      ∃ g ∈ weekGroups (rangeFilter s? e? (hourRecsAll prs)),
        en = mkWeeklyEntry g ∧
        weekKey en.weekStart = g.key.week ∧ weekKey en.weekEnd = g.key.week ∧
        g.key.week ≤ en.weekStart ∧ en.weekStart ≤ en.weekEnd ∧
        en.weekEnd ≤ g.key.week + 6 := by
  intro en hen
  unfold flagWeeklyOf at hen
  rw [List.mem_map] at hen
  obtain ⟨g, hgf, rfl⟩ := hen
  rw [List.mem_filter] at hgf
  obtain ⟨hg, _⟩ := hgf
  obtain ⟨k, ⟨r0, hr0, hk0⟩, hgdef⟩ := mem_weekGroups hg
  set recs := rangeFilter s? e? (hourRecsAll prs) with hrecs
  set sub := recs.filter (fun r => decide (weekKeyOf r = k)) with hsub
  have hr0sub : r0 ∈ sub := by
    rw [hsub, List.mem_filter]
    exact ⟨hr0, by simp [hk0]⟩
  have hne : sub.map (·.date) ≠ [] := by
    intro hnil
    have hmem := List.mem_map_of_mem (·.date) hr0sub
    rw [hnil] at hmem
    exact absurd hmem (by simp)
  have hweekall : ∀ d ∈ sub.map (·.date), weekKey d = k.week := by
    intro d hd
    rw [List.mem_map] at hd
    obtain ⟨r, hrsub, rfl⟩ := hd
    rw [hsub, List.mem_filter] at hrsub
    have hwk : weekKeyOf r = k := of_decide_eq_true hrsub.2
    have := congrArg WeekKey.week hwk
    simpa [weekKeyOf] using this
  have hmin := minD_mem hne
  have hmax := maxD_mem hne
  have hminw : weekKey (minD (sub.map (·.date))) = k.week := hweekall _ hmin
  have hmaxw : weekKey (maxD (sub.map (·.date))) = k.week := hweekall _ hmax
  refine ⟨g, hg, rfl, ?_⟩
  rw [hgdef]
  simp only [mkWeeklyEntry]
  refine ⟨hminw, hmaxw, ?_, minD_le hmax, ?_⟩
  · have := (weekKey_le (minD (sub.map (·.date)))).1
    rw [hminw] at this
    exact this
  · have := (weekKey_le (maxD (sub.map (·.date)))).2
    rw [hmaxw] at this
    exact this

/-- Witness: `week_bounds_min_max` on the Tuesday-to-Saturday dataset. -/
theorem week_bounds_min_max_witness :
    ∃ g ∈ weekGroups (rangeFilter none none (hourRecsAll
        [⟨"E1", "A", "B", some (1*86400 + 8*3600), some (1*86400 + 21*3600)⟩,
         ⟨"E1", "A", "B", some (2*86400 + 8*3600), some (2*86400 + 21*3600)⟩,
         ⟨"E1", "A", "B", some (3*86400 + 8*3600), some (3*86400 + 21*3600)⟩,
         ⟨"E1", "A", "B", some (4*86400 + 8*3600), some (4*86400 + 21*3600)⟩,
         ⟨"E1", "A", "B", some (5*86400 + 8*3600), some (5*86400 + 21*3600)⟩])),
      (⟨"A B", 1, 5, 6500⟩ : WeeklyEntry) = mkWeeklyEntry g ∧
        weekKey (1 : Int) = g.key.week ∧ weekKey (5 : Int) = g.key.week ∧
        g.key.week ≤ (1 : Int) ∧ (1 : Int) ≤ (5 : Int) ∧
        (5 : Int) ≤ g.key.week + 6 :=
  week_bounds_min_max
    [⟨"E1", "A", "B", some (1*86400 + 8*3600), some (1*86400 + 21*3600)⟩,
     ⟨"E1", "A", "B", some (2*86400 + 8*3600), some (2*86400 + 21*3600)⟩,
     ⟨"E1", "A", "B", some (3*86400 + 8*3600), some (3*86400 + 21*3600)⟩,
     ⟨"E1", "A", "B", some (4*86400 + 8*3600), some (4*86400 + 21*3600)⟩,
     ⟨"E1", "A", "B", some (5*86400 + 8*3600), some (5*86400 + 21*3600)⟩]
    none none ⟨"A B", 1, 5, 6500⟩ (by decide)

/-- Counterexample to claim C2 as stated: the single shift lies on a holiday
(work date 0 is in the holiday set) and the claim would require every flagged
list to be free of it, yet the excess-daily-hours list still flags its 13
hours — that check applies no date or holiday filter at all. -/
theorem filter_scope_counterexample :
    ((analyze [⟨"E1", "A", "B", .time (8*3600), .time (21*3600)⟩]
        none none [0] "reports" "req7").map fun res => res.flaggedExcess.length)
      = .ok 1 := by
  decide

/-- Claim C2 (amended): only the excess-working-days check honours the full
filter (date range and holidays) and only the weekly-excess check honours the
date range (ignoring holidays): for those two checks, rows excluded by the
respective filter influence nothing (pre-filtering the input is a no-op),
while the excess-daily-hours and low-rest checks take no filter parameters at
all and run on every record. -/
theorem filter_scope (prs : List ParsedRow) (s? e? : Option Int)
    (hols : List Int) :
    flagWeeklyOf prs s? e? =
      flagWeeklyOf (prs.filter fun r => rowInRange s? e? r) s? e? ∧
    flagDaysOf prs s? e? hols =
      flagDaysOf
        (prs.filter fun r => rowInRange s? e? r && rowNotHoliday hols r)
        s? e? hols := by
  constructor
  · have hAll : hourRecsAll (prs.filter fun r => rowInRange s? e? r) =
        (hourRecsAll prs).filter fun rec => inRangeB s? e? rec.date := by
      apply hourRecsAll_row_filter
      intro r i o hi ho
      simp [rowInRange, hi, recOf]
    have hrf : rangeFilter s? e?
          (hourRecsAll (prs.filter fun r => rowInRange s? e? r)) =
        rangeFilter s? e? (hourRecsAll prs) := by
      rw [hAll, rangeFilter_eq, rangeFilter_eq, filter_absorb (fun a h => h)]
    unfold flagWeeklyOf
    rw [hrf]
  · have hPos : hourRecsPos
          (prs.filter fun r => rowInRange s? e? r && rowNotHoliday hols r) =
        (hourRecsPos prs).filter
          fun rec => inRangeB s? e? rec.date && decide (rec.date ∉ hols) := by
      apply hourRecsPos_row_filter
      intro r i o hi ho
      simp [rowInRange, rowNotHoliday, hi, recOf]
    have hdr : daysRecs
          (prs.filter fun r => rowInRange s? e? r && rowNotHoliday hols r)
          s? e? hols = daysRecs prs s? e? hols := by
      unfold daysRecs
      rw [hPos, rangeFilter_eq, rangeFilter_eq, holidayFilter_eq,
        holidayFilter_eq]
      rw [filter_absorb (q := fun rec : HourRec => inRangeB s? e? rec.date)
        (fun a h => (Bool.and_eq_true _ _ |>.mp h).1)]
      rw [filter_absorb (q := fun rec : HourRec => decide (rec.date ∉ hols))
        (fun a h => (Bool.and_eq_true _ _ |>.mp h).2)]
      rw [filter_and]
    unfold flagDaysOf
    rw [hdr]
